import Mathlib

/-!
Verification of the caching subsystem of the financial-dashboard repository.

The backend document `src/backend/CACHING_OPTIMIZATION.md` contains the
implementation fragments that exist in the repository:
`_generate_cache_key` (lines 227-233), `_check_file_modified` (lines 239-242)
and `TTLCache._evict_expired` (lines 248-256).  These are embedded directly.
The surrounding components (`BoundedTTLCache`, `CacheManager`, `CacheWarmer`)
have no source in the repository; they are modelled from the specification.

Machine integers are modelled as `Nat` with explicit reduction modulo `2^32`
(resp. `2^64`) where the MD5 algorithm overflows; instants are `Nat`
timestamps; TTLs are `Int` so that non-positive TTLs are expressible;
fallible compute/loader callbacks return `Except String V`.
-/

namespace Md5

/-- One 32-bit word: a natural number reduced modulo `2^32`. -/
def u32 (n : Nat) : Nat := n % 4294967296

/-- Left-rotation of a 32-bit word by `s` bits (`0 < s < 32`). -/
def rotl (x s : Nat) : Nat := ((x <<< s) % 4294967296) ||| (x >>> (32 - s))

/-- Bitwise complement of a 32-bit word. -/
def compl32 (x : Nat) : Nat := 4294967295 - x

/-- MD5 auxiliary function F (rounds 0-15). -/
def auxF (b c d : Nat) : Nat := (b &&& c) ||| (compl32 b &&& d)

/-- MD5 auxiliary function G (rounds 16-31). -/
def auxG (b c d : Nat) : Nat := (d &&& b) ||| (compl32 d &&& c)

/-- MD5 auxiliary function H (rounds 32-47). -/
def auxH (b c d : Nat) : Nat := b ^^^ c ^^^ d

/-- MD5 auxiliary function I (rounds 48-63). -/
def auxI (b c d : Nat) : Nat := c ^^^ (b ||| compl32 d)

/-- The 64 MD5 sine-derived constants `K[i] = floor(abs(sin(i+1)) * 2^32)`. -/
def kTable : List Nat :=
  [0xd76aa478, 0xe8c7b756, 0x242070db, 0xc1bdceee,
   0xf57c0faf, 0x4787c62a, 0xa8304613, 0xfd469501,
   0x698098d8, 0x8b44f7af, 0xffff5bb1, 0x895cd7be,
   0x6b901122, 0xfd987193, 0xa679438e, 0x49b40821,
   0xf61e2562, 0xc040b340, 0x265e5a51, 0xe9b6c7aa,
   0xd62f105d, 0x02441453, 0xd8a1e681, 0xe7d3fbc8,
   0x21e1cde6, 0xc33707d6, 0xf4d50d87, 0x455a14ed,
   0xa9e3e905, 0xfcefa3f8, 0x676f02d9, 0x8d2a4c8a,
   0xfffa3942, 0x8771f681, 0x6d9d6122, 0xfde5380c,
   0xa4beea44, 0x4bdecfa9, 0xf6bb4b60, 0xbebfbc70,
   0x289b7ec6, 0xeaa127fa, 0xd4ef3085, 0x04881d05,
   0xd9d4d039, 0xe6db99e5, 0x1fa27cf8, 0xc4ac5665,
   0xf4292244, 0x432aff97, 0xab9423a7, 0xfc93a039,
   0x655b59c3, 0x8f0ccc92, 0xffeff47d, 0x85845dd1,
   0x6fa87e4f, 0xfe2ce6e0, 0xa3014314, 0x4e0811a1,
   0xf7537e82, 0xbd3af235, 0x2ad7d2bb, 0xeb86d391]

/-- The 64 per-round left-rotation amounts. -/
def sTable : List Nat :=
  [7, 12, 17, 22, 7, 12, 17, 22, 7, 12, 17, 22, 7, 12, 17, 22,
   5, 9, 14, 20, 5, 9, 14, 20, 5, 9, 14, 20, 5, 9, 14, 20,
   4, 11, 16, 23, 4, 11, 16, 23, 4, 11, 16, 23, 4, 11, 16, 23,
   6, 10, 15, 21, 6, 10, 15, 21, 6, 10, 15, 21, 6, 10, 15, 21]

/-- One MD5 round: given the message-word accessor `m`, round index `i`
and state `(a, b, c, d)`, produce the next state. -/
def round (m : Nat → Nat) (st : Nat × Nat × Nat × Nat) (i : Nat) :
    Nat × Nat × Nat × Nat :=
  let (a, b, c, d) := st
  let (f, g) :=
    if i < 16 then (auxF b c d, i)
    else if i < 32 then (auxG b c d, (5 * i + 1) % 16)
    else if i < 48 then (auxH b c d, (3 * i + 5) % 16)
    else (auxI b c d, (7 * i) % 16)
  let f2 := u32 (f + a + kTable.getD i 0 + m g)
  (d, u32 (b + rotl f2 (sTable.getD i 0)), b, c)

/-- Decode a 64-byte chunk into its sixteen little-endian 32-bit words. -/
def chunkWords (chunk : List Nat) (j : Nat) : Nat :=
  chunk.getD (4 * j) 0 + chunk.getD (4 * j + 1) 0 * 256 +
    chunk.getD (4 * j + 2) 0 * 65536 + chunk.getD (4 * j + 3) 0 * 16777216

/-- Process one 64-byte chunk, updating the running digest state. -/
def processChunk (st : Nat × Nat × Nat × Nat) (chunk : List Nat) :
    Nat × Nat × Nat × Nat :=
  let (a0, b0, c0, d0) := st
  let (a, b, c, d) := (List.range 64).foldl (round (chunkWords chunk)) st
  (u32 (a0 + a), u32 (b0 + b), u32 (c0 + c), u32 (d0 + d))

/-- MD5 padding: append `0x80`, zero bytes to reach 56 mod 64, then the
original bit length as eight little-endian bytes. -/
def padMessage (msg : List Nat) : List Nat :=
  let len := msg.length
  let zeros := (119 - len % 64) % 64
  msg ++ [0x80] ++ List.replicate zeros 0 ++
    (List.range 8).map (fun i => (len * 8) >>> (8 * i) % 256)

/-- Split a byte list into 64-byte chunks; the fuel argument (at least the
list length) makes the recursion structural. -/
def toChunksFuel : Nat → List Nat → List (List Nat)
  | 0, _ => []
  | _ + 1, [] => []
  | fuel + 1, x :: xs => (x :: xs).take 64 :: toChunksFuel fuel ((x :: xs).drop 64)

/-- Split a byte list into 64-byte chunks. -/
def toChunks (l : List Nat) : List (List Nat) := toChunksFuel l.length l

/-- The four 32-bit words of the MD5 digest of a byte string. -/
def md5Words (msg : List Nat) : Nat × Nat × Nat × Nat :=
  (toChunks (padMessage msg)).foldl processChunk
    (0x67452301, 0xefcdab89, 0x98badcfe, 0x10325476)

/-- The lowercase hexadecimal digit characters. -/
def hexDigits : List Char := "0123456789abcdef".data

/-- The hexadecimal digit character for `n % 16`. -/
def hexDigit (n : Nat) : Char := hexDigits.getD (n % 16) '0'

/-- The two hexadecimal characters of one byte. -/
def byteHex (b : Nat) : List Char := [hexDigit (b / 16), hexDigit b]

/-- Eight hexadecimal characters of a 32-bit word, bytes little-endian first. -/
def wordHexLE (w : Nat) : List Char :=
  byteHex (w % 256) ++ byteHex (w / 256 % 256) ++
    byteHex (w / 65536 % 256) ++ byteHex (w / 16777216 % 256)

/-- The 32 characters of the MD5 hex digest of a byte string: the four
state words in order, each rendered little-endian. -/
def md5HexChars (msg : List Nat) : List Char :=
  wordHexLE (md5Words msg).1 ++ wordHexLE (md5Words msg).2.1 ++
    wordHexLE (md5Words msg).2.2.1 ++ wordHexLE (md5Words msg).2.2.2

/-- The MD5 hex digest of a byte string, as a `String`. -/
def md5Hex (msg : List Nat) : String := String.mk (md5HexChars msg)

/-- Byte encoding of an ASCII string (the cache-key material is ASCII,
where UTF-8 bytes coincide with code points). -/
def strBytes (s : String) : List Nat := s.data.map Char.toNat

end Md5

namespace CacheKey

/-- Argument values passed to cached functions: integers and strings,
the JSON-serialisable scalars the dashboard queries use. -/
inductive PyVal where
  | pint : Int → PyVal
  | pstr : String → PyVal
deriving Repr, DecidableEq

/-- JSON escaping of one character (backslash and double quote; the
dashboard's argument strings contain no control characters). -/
def escChar (c : Char) : List Char :=
  if c = '\\' then ['\\', '\\'] else if c = '"' then ['\\', '"'] else [c]

/-- A JSON string literal. -/
def jsonString (s : String) : String :=
  String.mk ('"' :: (s.data.map escChar).flatten ++ ['"'])

/-- JSON rendering of one argument value, as `json.dumps` renders it. -/
def dumpVal : PyVal → String
  | .pint i => toString i
  | .pstr s => jsonString s

/-- A JSON array with the default `json.dumps` separator. -/
def dumpArr (vs : List String) : String := "[" ++ String.intercalate ", " vs ++ "]"

/-- A `(key, value)` pair, rendered by `json.dumps` as a two-element array. -/
def dumpPair (p : String × PyVal) : String :=
  dumpArr [jsonString p.1, dumpVal p.2]

/-- Comparison used by `sorted(kwargs.items())`: keyword pairs ordered by
key (keyword keys are dict keys, hence distinct, so the value is never
compared). -/
def kwLe (a b : String × PyVal) : Prop := a.1 ≤ b.1

instance : DecidableRel kwLe := fun a b => inferInstanceAs (Decidable (a.1 ≤ b.1))

instance : IsTotal (String × PyVal) kwLe := ⟨fun a b => le_total a.1 b.1⟩

instance : IsTrans (String × PyVal) kwLe := ⟨fun _ _ _ h1 h2 => le_trans h1 h2⟩

/-- Strict key order on keyword pairs. -/
def kwLt (a b : String × PyVal) : Prop := a.1 < b.1

instance : IsAntisymm (String × PyVal) kwLt := ⟨fun _ _ h1 h2 => absurd h2 (lt_asymm h1)⟩

/-- `sorted(kwargs.items())`. -/
def sortKwargs (kwargs : List (String × PyVal)) : List (String × PyVal) :=
  List.insertionSort kwLe kwargs

/-- `json.dumps(\x7b'args': args, 'kwargs': sorted(kwargs.items())\x7d,
sort_keys=True)`: with `sort_keys`, the outer object renders `args` before
`kwargs`. -/
def keyString (args : List PyVal) (kwargs : List (String × PyVal)) : String :=
  "\x7b\"args\": " ++ dumpArr (args.map dumpVal) ++ ", \"kwargs\": " ++
    dumpArr ((sortKwargs kwargs).map dumpPair) ++ "\x7d"

/-- Embeds `_generate_cache_key` from src/backend/CACHING_OPTIMIZATION.md
(lines 227-233): the prefix, a colon, and the MD5 hex digest of the
serialised arguments. -/
def generateCacheKey (pfx : String) (args : List PyVal)
    (kwargs : List (String × PyVal)) : String :=
  pfx ++ ":" ++ Md5.md5Hex (Md5.strBytes (keyString args kwargs))

end CacheKey

namespace Cache

open CacheKey

/-- Modelled from the spec: `CacheEntry` of §3 — the implementation of the
caching subsystem is not in the repository, only its design document.
`value`, `createdAt`, `expiresAt`, `lastAccessedAt` as specified. -/
structure CacheEntry (V : Type) where
  value : V
  createdAt : Nat
  expiresAt : Nat
  lastAccessedAt : Nat
deriving Repr, DecidableEq

/-- Modelled from the spec: the `BoundedTTLCache` state of §3.  `entries`
is an association list kept in insertion order (the order LRU ties are
broken by); `defaultTTL` is an `Int` so non-positive TTLs are expressible. -/
structure BoundedTTLCache (V : Type) where
  entries : List (String × CacheEntry V)
  maxSize : Nat
  defaultTTL : Int
  hits : Nat
  misses : Nat
  evictions : Nat
deriving Repr, DecidableEq

/-- A fresh cache with the given bound and default TTL. -/
def mkCache (V : Type) (maxSize : Nat) (defaultTTL : Int) : BoundedTTLCache V :=
  ⟨[], maxSize, defaultTTL, 0, 0, 0⟩

/-- Look up the entry stored under a key. -/
def lookupEntry {V : Type} (es : List (String × CacheEntry V)) (k : String) :
    Option (CacheEntry V) :=
  (es.find? (fun p => p.1 == k)).map (·.2)

/-- Remove a key from the entry list. -/
def removeKey {V : Type} (es : List (String × CacheEntry V)) (k : String) :
    List (String × CacheEntry V) :=
  es.filter (fun p => ¬ p.1 == k)

/-- Refresh the last-access instant of a key. -/
def touchKey {V : Type} (es : List (String × CacheEntry V)) (k : String) (now : Nat) :
    List (String × CacheEntry V) :=
  es.map (fun p => if p.1 == k then (p.1, { p.2 with lastAccessedAt := now }) else p)

/-- Modelled from the spec: `get` of §4.1 — absent: miss; present but
`now >= expiresAt`: remove, miss, return empty; otherwise refresh
`lastAccessedAt`, record hit, return the value. -/
def BoundedTTLCache.get {V : Type} (c : BoundedTTLCache V) (k : String) (now : Nat) :
    Option V × BoundedTTLCache V :=
  match lookupEntry c.entries k with
  | none => (none, { c with misses := c.misses + 1 })
  | some e =>
    if e.expiresAt ≤ now then
      (none, { c with entries := removeKey c.entries k, misses := c.misses + 1 })
    else
      (some e.value, { c with entries := touchKey c.entries k now, hits := c.hits + 1 })

/-- Remove the entry with the oldest `lastAccessedAt`, ties broken by
insertion order (the first minimum in the list). -/
def removeLRU {V : Type} : List (String × CacheEntry V) → List (String × CacheEntry V)
  | [] => []
  | x :: xs =>
    if xs.all (fun y => x.2.lastAccessedAt ≤ y.2.lastAccessedAt) then xs
    else x :: removeLRU xs

/-- Iterate a function `n` times. -/
def applyN {α : Type} (f : α → α) : Nat → α → α
  | 0, a => a
  | n + 1, a => applyN f n (f a)

/-- Modelled from the spec: `set` of §4.1 — `ttl <= 0` disables storage for
the call; `maxSize == 0` disables storage entirely; otherwise insert or
overwrite with `expiresAt = now + ttl` and evict least-recently-used
entries until the size is back within the bound. -/
def BoundedTTLCache.set {V : Type} (c : BoundedTTLCache V) (k : String) (v : V)
    (ttl : Int) (now : Nat) : BoundedTTLCache V :=
  if ttl ≤ 0 then c
  else if c.maxSize = 0 then c
  else
    let e : CacheEntry V := ⟨v, now, now + ttl.toNat, now⟩
    let es := removeKey c.entries k ++ [(k, e)]
    let n := es.length - c.maxSize
    { c with entries := applyN removeLRU n es, evictions := c.evictions + n }

/-- Modelled from the spec: `invalidate` of §4.1. -/
def BoundedTTLCache.invalidate {V : Type} (c : BoundedTTLCache V) (k : String) :
    Bool × BoundedTTLCache V :=
  ((lookupEntry c.entries k).isSome, { c with entries := removeKey c.entries k })

/-- Modelled from the spec: `invalidatePattern` of §4.1 — remove every key
matching a predicate over the key string, returning the count removed. -/
def BoundedTTLCache.invalidatePattern {V : Type} (c : BoundedTTLCache V)
    (pred : String → Bool) : Nat × BoundedTTLCache V :=
  ((c.entries.filter (fun p => pred p.1)).length,
   { c with entries := c.entries.filter (fun p => ¬ pred p.1) })

/-- Modelled from the spec: `clear` of §4.1 — removes all entries, the
counters persist. -/
def BoundedTTLCache.clear {V : Type} (c : BoundedTTLCache V) : BoundedTTLCache V :=
  { c with entries := [] }

/-- The operations a client can perform on one cache, for stating
invariants over arbitrary operation sequences. -/
inductive CacheOp (V : Type) where
  | get (k : String) (now : Nat)
  | set (k : String) (v : V) (ttl : Int) (now : Nat)
  | invalidate (k : String)
  | invalidatePattern (pred : String → Bool)
  | clear

/-- Apply one operation, discarding the returned value. -/
def applyOp {V : Type} (c : BoundedTTLCache V) : CacheOp V → BoundedTTLCache V
  | .get k now => (c.get k now).2
  | .set k v ttl now => c.set k v ttl now
  | .invalidate k => (c.invalidate k).2
  | .invalidatePattern pred => (c.invalidatePattern pred).2
  | .clear => c.clear

/-- Apply a sequence of operations in order. -/
def applyOps {V : Type} (c : BoundedTTLCache V) : List (CacheOp V) → BoundedTTLCache V
  | [] => c
  | op :: ops => applyOps (applyOp c op) ops

/-- Look up a recorded file modification time. -/
def lookupNat (m : List (String × Nat)) (k : String) : Option Nat :=
  (m.find? (fun p => p.1 == k)).map (·.2)

/-- Record a file modification time, overwriting any previous record. -/
def updateNat (m : List (String × Nat)) (k : String) (v : Nat) :
    List (String × Nat) :=
  m.filter (fun p => ¬ p.1 == k) ++ [(k, v)]

/-- Embeds `_check_file_modified` from src/backend/CACHING_OPTIMIZATION.md
(lines 239-242): the file counts as modified exactly when its current
mtime is strictly greater than the recorded one, a missing record reading
as `0` (`self.file_mtimes.get(file_path, 0)`). -/
def checkFileModified (fileMtimes : List (String × Nat)) (filePath : String)
    (currentMtime : Nat) : Bool :=
  decide ((lookupNat fileMtimes filePath).getD 0 < currentMtime)

/-- Modelled from the spec: the `CacheManager` state of §4.2 — three named
caches, the per-file mtime records, and each namespace's TTL. -/
structure CacheManager (V : Type) where
  dataCache : BoundedTTLCache V
  queryCache : BoundedTTLCache V
  aggCache : BoundedTTLCache V
  fileMtimes : List (String × Nat)
  dataTTL : Int
  queryTTL : Int
  aggTTL : Int
deriving Repr, DecidableEq

/-- A fresh manager with empty caches and no file records. -/
def mkManager (V : Type) (sizes : Nat × Nat × Nat) (ttls : Int × Int × Int) :
    CacheManager V :=
  ⟨mkCache V sizes.1 ttls.1, mkCache V sizes.2.1 ttls.2.1, mkCache V sizes.2.2 ttls.2.2,
   [], ttls.1, ttls.2.1, ttls.2.2⟩

/-- The cache-aside part of `getData` (spec §4.2), after any
file-modification invalidation has been applied: look the file up in the
data cache; on a hit return it; on a miss run the loader, and only on
success store the result and advance the mtime record.  The returned
`Bool` reports whether the loader was invoked. -/
def CacheManager.getDataAux {V : Type} (m1 : CacheManager V) (filePath : String)
    (currentMtime : Nat) (loaderFn : String → Except String V) (now : Nat) :
    Except String V × CacheManager V × Bool :=
  match m1.dataCache.get filePath now with
  | (some v, dc) => (.ok v, { m1 with dataCache := dc }, false)
  | (none, dc) =>
    match loaderFn filePath with
    | .error e => (.error e, { m1 with dataCache := dc }, true)
    | .ok v =>
      (.ok v,
       { m1 with dataCache := dc.set filePath v m1.dataTTL now,
                 fileMtimes := updateNat m1.fileMtimes filePath currentMtime },
       true)

/-- Modelled from the spec: `getData` of §4.2.  The file-modification test
is the embedded `checkFileModified`; on a detected change the data-cache
entry is invalidated before the normal cache-aside flow of
`getDataAux`. -/
def CacheManager.getData {V : Type} (m : CacheManager V) (filePath : String)
    (currentMtime : Nat) (loaderFn : String → Except String V) (now : Nat) :
    Except String V × CacheManager V × Bool :=
  CacheManager.getDataAux
    (if checkFileModified m.fileMtimes filePath currentMtime then
      { m with dataCache := (m.dataCache.invalidate filePath).2 }
    else m) filePath currentMtime loaderFn now

/-- Modelled from the spec: `cachedQuery` of §4.2 — cache-aside against the
query cache under the derived key; the compute callback runs only on a
miss and its result is stored only on success.  The returned `Bool`
reports whether the callback was invoked. -/
def CacheManager.cachedQuery {V : Type} (m : CacheManager V) (name : String)
    (args : List PyVal) (kwargs : List (String × PyVal))
    (computeFn : Unit → Except String V) (now : Nat) :
    Except String V × CacheManager V × Bool :=
  let key := generateCacheKey name args kwargs
  match m.queryCache.get key now with
  | (some v, qc) => (.ok v, { m with queryCache := qc }, false)
  | (none, qc) =>
    match computeFn () with
    | .error e => (.error e, { m with queryCache := qc }, true)
    | .ok v => (.ok v, { m with queryCache := qc.set key v m.queryTTL now }, true)

/-- Modelled from the spec: `cachedAggregation` of §4.2 — the identical
pattern against the aggregation cache with its own TTL. -/
def CacheManager.cachedAggregation {V : Type} (m : CacheManager V) (name : String)
    (args : List PyVal) (kwargs : List (String × PyVal))
    (computeFn : Unit → Except String V) (now : Nat) :
    Except String V × CacheManager V × Bool :=
  let key := generateCacheKey name args kwargs
  match m.aggCache.get key now with
  | (some v, ac) => (.ok v, { m with aggCache := ac }, false)
  | (none, ac) =>
    match computeFn () with
    | .error e => (.error e, { m with aggCache := ac }, true)
    | .ok v => (.ok v, { m with aggCache := ac.set key v m.aggTTL now }, true)

/-- Modelled from the spec: a `WarmingPlanItem` of §3 — an identifier, the
target query and its arguments, and the compute callback. -/
structure WarmingPlanItem (V : Type) where
  id : String
  name : String
  args : List PyVal
  kwargs : List (String × PyVal)
  computeFn : Unit → Except String V

/-- Modelled from the spec: the `WarmingReport` of §4.3 — ids of items
warmed successfully, and `(id, error)` for each failed item. -/
structure WarmingReport where
  succeeded : List String
  failures : List (String × String)
deriving Repr, DecidableEq

/-- Modelled from the spec: `warmAll` of §4.3 — drive the manager through
the plan in order via the normal `cachedQuery` path; a failing item is
recorded in the report and warming continues with the remaining items. -/
def warmAll {V : Type} (m : CacheManager V) (plan : List (WarmingPlanItem V))
    (now : Nat) : CacheManager V × WarmingReport :=
  match plan with
  | [] => (m, ⟨[], []⟩)
  | item :: rest =>
    let r := m.cachedQuery item.name item.args item.kwargs item.computeFn now
    let rec2 := warmAll r.2.1 rest now
    match r.1 with
    | .ok _ => (rec2.1, { rec2.2 with succeeded := item.id :: rec2.2.succeeded })
    | .error e => (rec2.1, { rec2.2 with failures := (item.id, e) :: rec2.2.failures })

end Cache

namespace SweepImpl

/-- The state of the `TTLCache` fragment in src/backend/CACHING_OPTIMIZATION.md
(lines 248-256): an entry map `cache` and an expiry map `timestamps`,
as the two dictionaries the snippet manipulates. -/
structure TTLCacheImpl (V : Type) where
  cache : List (String × V)
  timestamps : List (String × Nat)
deriving Repr, DecidableEq

/-- Embeds `TTLCache._evict_expired` from src/backend/CACHING_OPTIMIZATION.md
(lines 248-256): collect every key of `timestamps` whose expiry instant is
strictly before `now` (`datetime.now() > expiry_time`) and pop each from
`cache` (`self.cache.pop(key, None)`); `timestamps` itself is not
modified by the loop. -/
def TTLCacheImpl.evictExpired {V : Type} (c : TTLCacheImpl V) (now : Nat) :
    TTLCacheImpl V :=
  let expiredKeys := (c.timestamps.filter (fun p => p.2 < now)).map (·.1)
  { c with cache := c.cache.filter (fun p => ¬ expiredKeys.contains p.1) }

end SweepImpl

namespace Cache

theorem lookupEntry_removeKey {V : Type} (es : List (String × CacheEntry V))
    (k : String) : lookupEntry (removeKey es k) k = none := by
  simp only [lookupEntry, removeKey, Option.map_eq_none']
  rw [List.find?_eq_none]
  intro p hp
  have := (List.mem_filter.mp hp).2
  simpa using this

theorem lookupEntry_none_removeKey {V : Type} (es : List (String × CacheEntry V))
    (k k' : String) (h : lookupEntry es k = none) :
    lookupEntry (removeKey es k') k = none := by
  simp only [lookupEntry, removeKey, Option.map_eq_none'] at h ⊢
  rw [List.find?_eq_none] at h ⊢
  intro p hp
  exact h p (List.mem_filter.mp hp).1

theorem get_of_lookup_none {V : Type} (c : BoundedTTLCache V) (k : String)
    (now : Nat) (h : lookupEntry c.entries k = none) :
    c.get k now = (none, { c with misses := c.misses + 1 }) := by
  simp [BoundedTTLCache.get, h]

theorem get_miss_lookup_none {V : Type} (c : BoundedTTLCache V) (k : String)
    (now : Nat) (h : (c.get k now).1 = none) :
    lookupEntry ((c.get k now).2.entries) k = none := by
  cases hl : lookupEntry c.entries k with
  | none => simp [BoundedTTLCache.get, hl]
  | some e =>
    by_cases hexp : e.expiresAt ≤ now
    · simp [BoundedTTLCache.get, hl, hexp, lookupEntry_removeKey]
    · simp [BoundedTTLCache.get, hl, hexp] at h

theorem getDataAux_flag_of_no_entry {V : Type} (m1 : CacheManager V)
    (p : String) (mt : Nat) (loader : String → Except String V) (now : Nat)
    (h : lookupEntry m1.dataCache.entries p = none) :
    (m1.getDataAux p mt loader now).2.2 = true := by
  unfold CacheManager.getDataAux
  rw [get_of_lookup_none _ _ _ h]
  cases loader p <;> rfl

theorem getData_flag_of_no_entry {V : Type} (m : CacheManager V) (p : String)
    (mt : Nat) (loader : String → Except String V) (now : Nat)
    (h : lookupEntry m.dataCache.entries p = none) :
    (m.getData p mt loader now).2.2 = true := by
  unfold CacheManager.getData
  by_cases hc : checkFileModified m.fileMtimes p mt
  · rw [if_pos hc]
    refine getDataAux_flag_of_no_entry _ _ _ _ _ ?_
    simpa [BoundedTTLCache.invalidate] using
      lookupEntry_removeKey m.dataCache.entries p
  · rw [if_neg hc]
    exact getDataAux_flag_of_no_entry _ _ _ _ _ h

theorem getDataAux_error {V : Type} (m1 : CacheManager V) (p : String)
    (mt : Nat) (loader : String → Except String V) (now : Nat) (e : String)
    (h : (m1.getDataAux p mt loader now).1 = .error e) :
    loader p = .error e ∧
    (m1.getDataAux p mt loader now).2.1 =
      { m1 with dataCache := (m1.dataCache.get p now).2 } ∧
    (m1.dataCache.get p now).1 = none ∧
    (m1.getDataAux p mt loader now).2.2 = true := by
  rcases hg : m1.dataCache.get p now with ⟨o, dc⟩
  unfold CacheManager.getDataAux at h ⊢
  rw [hg] at h ⊢
  cases o with
  | some v => simp at h
  | none =>
    dsimp only at h ⊢
    cases hl : loader p with
    | ok v =>
      rw [hl] at h
      exact absurd (show Except.ok v = Except.error e from h) (by simp)
    | error err =>
      rw [hl] at h
      obtain rfl : err = e := Except.error.inj
        (show Except.error err = Except.error e from h)
      exact ⟨rfl, rfl, rfl, rfl⟩

theorem cachedQuery_flag_of_no_entry {V : Type} (m : CacheManager V)
    (name : String) (args : List CacheKey.PyVal)
    (kwargs : List (String × CacheKey.PyVal))
    (computeFn : Unit → Except String V) (now : Nat)
    (h : lookupEntry m.queryCache.entries
      (CacheKey.generateCacheKey name args kwargs) = none) :
    (m.cachedQuery name args kwargs computeFn now).2.2 = true := by
  unfold CacheManager.cachedQuery
  dsimp only
  rw [get_of_lookup_none _ _ _ h]
  cases computeFn () <;> rfl

theorem cachedAggregation_flag_of_no_entry {V : Type} (m : CacheManager V)
    (name : String) (args : List CacheKey.PyVal)
    (kwargs : List (String × CacheKey.PyVal))
    (computeFn : Unit → Except String V) (now : Nat)
    (h : lookupEntry m.aggCache.entries
      (CacheKey.generateCacheKey name args kwargs) = none) :
    (m.cachedAggregation name args kwargs computeFn now).2.2 = true := by
  unfold CacheManager.cachedAggregation
  dsimp only
  rw [get_of_lookup_none _ _ _ h]
  cases computeFn () <;> rfl

theorem cachedQuery_error {V : Type} (m : CacheManager V) (name : String)
    (args : List CacheKey.PyVal) (kwargs : List (String × CacheKey.PyVal))
    (computeFn : Unit → Except String V) (now : Nat) (e : String)
    (h : (m.cachedQuery name args kwargs computeFn now).1 = .error e) :
    computeFn () = .error e ∧
    (m.cachedQuery name args kwargs computeFn now).2.1 =
      { m with queryCache :=
        (m.queryCache.get (CacheKey.generateCacheKey name args kwargs) now).2 } ∧
    (m.queryCache.get (CacheKey.generateCacheKey name args kwargs) now).1 = none ∧
    (m.cachedQuery name args kwargs computeFn now).2.2 = true := by
  rcases hg : m.queryCache.get (CacheKey.generateCacheKey name args kwargs) now
    with ⟨o, qc⟩
  unfold CacheManager.cachedQuery at h ⊢
  dsimp only at h ⊢
  rw [hg] at h ⊢
  cases o with
  | some v => simp at h
  | none =>
    dsimp only at h ⊢
    cases hl : computeFn () with
    | ok v =>
      rw [hl] at h
      exact absurd (show Except.ok v = Except.error e from h) (by simp)
    | error err =>
      rw [hl] at h
      obtain rfl : err = e := Except.error.inj
        (show Except.error err = Except.error e from h)
      exact ⟨rfl, rfl, rfl, rfl⟩

theorem cachedAggregation_error {V : Type} (m : CacheManager V) (name : String)
    (args : List CacheKey.PyVal) (kwargs : List (String × CacheKey.PyVal))
    (computeFn : Unit → Except String V) (now : Nat) (e : String)
    (h : (m.cachedAggregation name args kwargs computeFn now).1 = .error e) :
    computeFn () = .error e ∧
    (m.cachedAggregation name args kwargs computeFn now).2.1 =
      { m with aggCache :=
        (m.aggCache.get (CacheKey.generateCacheKey name args kwargs) now).2 } ∧
    (m.aggCache.get (CacheKey.generateCacheKey name args kwargs) now).1 = none ∧
    (m.cachedAggregation name args kwargs computeFn now).2.2 = true := by
  rcases hg : m.aggCache.get (CacheKey.generateCacheKey name args kwargs) now
    with ⟨o, ac⟩
  unfold CacheManager.cachedAggregation at h ⊢
  dsimp only at h ⊢
  rw [hg] at h ⊢
  cases o with
  | some v => simp at h
  | none =>
    dsimp only at h ⊢
    cases hl : computeFn () with
    | ok v =>
      rw [hl] at h
      exact absurd (show Except.ok v = Except.error e from h) (by simp)
    | error err =>
      rw [hl] at h
      obtain rfl : err = e := Except.error.inj
        (show Except.error err = Except.error e from h)
      exact ⟨rfl, rfl, rfl, rfl⟩

theorem removeLRU_length {V : Type} (l : List (String × CacheEntry V)) :
    (removeLRU l).length = l.length - 1 := by
  induction l with
  | nil => rfl
  | cons x xs ih =>
    by_cases h : xs.all (fun y => x.2.lastAccessedAt ≤ y.2.lastAccessedAt)
    · simp [removeLRU, h]
    · have hne : xs ≠ [] := by
        intro hnil
        subst hnil
        simp at h
      have hpos : 0 < xs.length := List.length_pos.mpr hne
      simp only [removeLRU, if_neg h, List.length_cons, ih]
      omega

theorem removeLRU_removes_min {V : Type} (l : List (String × CacheEntry V))
    (h : l ≠ []) :
    ∃ x, x ∈ l ∧ (∀ z ∈ l, x.2.lastAccessedAt ≤ z.2.lastAccessedAt) ∧
      l.Perm (x :: removeLRU l) := by
  induction l with
  | nil => exact absurd rfl h
  | cons x xs ih =>
    by_cases hall : xs.all (fun y => x.2.lastAccessedAt ≤ y.2.lastAccessedAt)
    · refine ⟨x, List.mem_cons_self _ _, ?_, ?_⟩
      · intro z hz
        rcases List.mem_cons.mp hz with rfl | hz'
        · exact le_refl _
        · exact of_decide_eq_true (List.all_eq_true.mp hall z hz')
      · rw [removeLRU, if_pos hall]
    · have hxs : xs ≠ [] := by
        intro hnil
        subst hnil
        simp at hall
      obtain ⟨y, hy, hymin, hyperm⟩ := ih hxs
      have hz : ∃ z ∈ xs, ¬ x.2.lastAccessedAt ≤ z.2.lastAccessedAt := by
        by_contra hno
        push_neg at hno
        exact hall (List.all_eq_true.mpr (fun z hz => decide_eq_true (hno z hz)))
      obtain ⟨z, hzmem, hzlt⟩ := hz
      refine ⟨y, List.mem_cons_of_mem _ hy, ?_, ?_⟩
      · intro w hw
        rcases List.mem_cons.mp hw with rfl | hw'
        · exact le_trans (hymin z hzmem) (le_of_not_le hzlt)
        · exact hymin w hw'
      · rw [removeLRU, if_neg hall]
        exact (hyperm.cons x).trans (List.Perm.swap y x (removeLRU xs))

theorem applyN_removeLRU_length {V : Type} (n : Nat)
    (l : List (String × CacheEntry V)) :
    (applyN removeLRU n l).length = l.length - n := by
  induction n generalizing l with
  | zero => rfl
  | succ n ih =>
    simp only [applyN, ih, removeLRU_length]
    omega

theorem removeKey_length_le {V : Type} (es : List (String × CacheEntry V))
    (k : String) : (removeKey es k).length ≤ es.length :=
  List.length_filter_le _ _

theorem set_entries_length_le {V : Type} (c : BoundedTTLCache V) (k : String)
    (v : V) (ttl : Int) (now : Nat) (h : c.entries.length ≤ c.maxSize) :
    (c.set k v ttl now).entries.length ≤ c.maxSize := by
  unfold BoundedTTLCache.set
  split
  · exact h
  · split
    · exact h
    · simp only [applyN_removeLRU_length]
      omega

theorem applyOp_maxSize {V : Type} (c : BoundedTTLCache V) (op : CacheOp V) :
    (applyOp c op).maxSize = c.maxSize := by
  cases op with
  | get k now =>
    simp only [applyOp, BoundedTTLCache.get]
    cases lookupEntry c.entries k with
    | none => rfl
    | some e => dsimp only; split <;> rfl
  | set k v ttl now =>
    simp only [applyOp, BoundedTTLCache.set]
    split
    · rfl
    · split <;> rfl
  | invalidate k => rfl
  | invalidatePattern pred => rfl
  | clear => rfl

theorem applyOp_size_le {V : Type} (c : BoundedTTLCache V) (op : CacheOp V)
    (h : c.entries.length ≤ c.maxSize) :
    (applyOp c op).entries.length ≤ (applyOp c op).maxSize := by
  rw [applyOp_maxSize]
  cases op with
  | get k now =>
    simp only [applyOp, BoundedTTLCache.get]
    cases lookupEntry c.entries k with
    | none => exact h
    | some e =>
      dsimp only
      split
      · exact le_trans (removeKey_length_le _ _) h
      · simpa [touchKey] using h
  | set k v ttl now => exact set_entries_length_le c k v ttl now h
  | invalidate k => exact le_trans (removeKey_length_le _ _) h
  | invalidatePattern pred => exact le_trans (List.length_filter_le _ _) h
  | clear => simp [applyOp, BoundedTTLCache.clear]

theorem applyOps_maxSize {V : Type} (c : BoundedTTLCache V)
    (ops : List (CacheOp V)) : (applyOps c ops).maxSize = c.maxSize := by
  induction ops generalizing c with
  | nil => rfl
  | cons op ops ih => rw [applyOps, ih, applyOp_maxSize]

theorem applyOps_size_le {V : Type} (c : BoundedTTLCache V)
    (ops : List (CacheOp V)) (h : c.entries.length ≤ c.maxSize) :
    (applyOps c ops).entries.length ≤ (applyOps c ops).maxSize := by
  induction ops generalizing c with
  | nil => exact h
  | cons op ops ih => exact ih (applyOp c op) (applyOp_size_le c op h)

theorem applyOps_mkCache_size_le {V : Type} (N : Nat) (ttl : Int)
    (ops : List (CacheOp V)) :
    (applyOps (mkCache V N ttl) ops).entries.length ≤ N := by
  have h := applyOps_size_le (mkCache V N ttl) ops (by simp [mkCache])
  rwa [applyOps_maxSize] at h

end Cache

/-- C9: the periodic expiry sweep (`TTLCache._evict_expired`) removes each
expired key from the entry map `cache` but never touches the `timestamps`
map, so after a sweep `timestamps` can hold keys with no corresponding
cache entry. -/
theorem c9_sweep_desyncs_timestamps :
    (∀ (V : Type) (c : SweepImpl.TTLCacheImpl V) (now : Nat),
        (c.evictExpired now).timestamps = c.timestamps)
    ∧ (∀ (V : Type) (c : SweepImpl.TTLCacheImpl V) (now : Nat) (k : String)
        (t : Nat), (k, t) ∈ c.timestamps → t < now →
        ∀ v, (k, v) ∉ (c.evictExpired now).cache)
    ∧ ((SweepImpl.TTLCacheImpl.evictExpired ⟨[("k", 7)], [("k", 5)]⟩ 6).cache = [] ∧
       (SweepImpl.TTLCacheImpl.evictExpired (V := Nat) ⟨[("k", 7)], [("k", 5)]⟩ 6).timestamps
         = [("k", 5)]) := by
  refine ⟨fun V c now => rfl, ?_, by decide, by decide⟩
  intro V c now k t hmem hlt v hv
  have h2 := (List.mem_filter.mp hv).2
  simp only [decide_not, decide_eq_true_eq, Bool.not_eq_true', decide_eq_false_iff_not] at h2
  apply h2
  have : k ∈ (c.timestamps.filter (fun p => p.2 < now)).map Prod.fst := by
    refine List.mem_map.mpr ⟨(k, t), List.mem_filter.mpr ⟨hmem, by simpa using hlt⟩, rfl⟩
  simpa [List.contains_iff_exists_mem_beq] using this

/-- C9 witness: a concrete sweep at `now = 6` over a cache holding key `k`
with expiry instant `5` removes `k` from the entry map while the
timestamps map still records it. -/
theorem c9_sweep_desyncs_timestamps_witness :
    ("k", (5 : Nat)) ∈ ([("k", 5)] : List (String × Nat)) ∧
    ∀ v : Nat, ("k", v) ∉
      (SweepImpl.TTLCacheImpl.evictExpired ⟨[("k", 7)], [("k", 5)]⟩ 6).cache := by
  refine ⟨by decide, ?_⟩
  intro v
  exact c9_sweep_desyncs_timestamps.2.1 Nat ⟨[("k", 7)], [("k", 5)]⟩ 6 "k" 5
    (by decide) (by decide) v

namespace Md5

theorem getD_hexDigits_mem (m : Nat) : hexDigits.getD m '0' ∈ hexDigits := by
  by_cases h : m < 16
  · interval_cases m <;> decide
  · have hlen : hexDigits.length ≤ m := by simp [hexDigits]; omega
    rw [List.getD_eq_getElem?_getD, List.getElem?_eq_none hlen]
    decide

theorem hexDigit_mem (n : Nat) : hexDigit n ∈ hexDigits :=
  getD_hexDigits_mem (n % 16)

theorem byteHex_mem (b : Nat) : ∀ ch ∈ byteHex b, ch ∈ hexDigits := by
  intro ch hch
  simp only [byteHex, List.mem_cons, List.not_mem_nil, or_false] at hch
  rcases hch with h | h <;> (subst h; exact hexDigit_mem _)

theorem wordHexLE_mem (w : Nat) : ∀ ch ∈ wordHexLE w, ch ∈ hexDigits := by
  intro ch hch
  simp only [wordHexLE, List.mem_append] at hch
  rcases hch with ((h | h) | h) | h <;> exact byteHex_mem _ _ h

theorem md5HexChars_mem (msg : List Nat) :
    ∀ ch ∈ md5HexChars msg, ch ∈ hexDigits := by
  intro ch hch
  simp only [md5HexChars, List.mem_append] at hch
  rcases hch with ((h | h) | h) | h <;> exact wordHexLE_mem _ _ h

theorem wordHexLE_length (w : Nat) : (wordHexLE w).length = 8 := by
  simp [wordHexLE, byteHex]

theorem md5HexChars_length (msg : List Nat) : (md5HexChars msg).length = 32 := by
  simp [md5HexChars, wordHexLE_length]

theorem md5Hex_length (msg : List Nat) : (md5Hex msg).length = 32 := by
  simp [md5Hex, md5HexChars_length]

theorem md5Hex_data (msg : List Nat) : (md5Hex msg).data = md5HexChars msg := rfl

theorem colon_not_mem_hexDigits : ':' ∉ hexDigits := by decide

end Md5

theorem eq_of_colon_free_append {L1 L2 t u : List Char}
    (h : L1 ++ ':' :: t = L2 ++ ':' :: u)
    (h1 : ':' ∉ L1) (h2 : ':' ∉ L2) : L1 = L2 := by
  induction L1 generalizing L2 with
  | nil =>
    cases L2 with
    | nil => rfl
    | cons y L2' =>
      simp only [List.nil_append, List.cons_append, List.cons.injEq] at h
      obtain ⟨hy, -⟩ := h
      subst hy
      exact absurd (List.mem_cons_self _ _) h2
  | cons x L1' ih =>
    cases L2 with
    | nil =>
      simp only [List.cons_append, List.nil_append, List.cons.injEq] at h
      obtain ⟨hx, -⟩ := h
      subst hx
      exact absurd (List.mem_cons_self _ _) h1
    | cons y L2' =>
      simp only [List.cons_append, List.cons.injEq] at h
      obtain ⟨hx, ht⟩ := h
      subst hx
      rw [ih ht (fun hc => h1 (List.mem_cons_of_mem _ hc))
        (fun hc => h2 (List.mem_cons_of_mem _ hc))]

namespace CacheKey

theorem generateCacheKey_data (pfx : String) (args : List PyVal)
    (kwargs : List (String × PyVal)) :
    (generateCacheKey pfx args kwargs).data =
      pfx.data ++ ':' ::
        (Md5.md5Hex (Md5.strBytes (keyString args kwargs))).data := by
  simp [generateCacheKey]

theorem sorted_kwLt_of_sorted_nodup (l : List (String × PyVal))
    (hs : l.Sorted kwLe) (hnd : (l.map Prod.fst).Nodup) : l.Sorted kwLt := by
  have hp : l.Pairwise (fun a b => a.1 ≠ b.1) := List.pairwise_map.mp hnd
  exact (hs.and hp).imp (fun h => lt_of_le_of_ne h.1 h.2)

theorem sortKwargs_perm_eq (kw1 kw2 : List (String × PyVal))
    (hperm : kw1.Perm kw2) (hnd : (kw1.map Prod.fst).Nodup) :
    sortKwargs kw1 = sortKwargs kw2 := by
  have h1 : (sortKwargs kw1).Perm (sortKwargs kw2) :=
    ((List.perm_insertionSort kwLe kw1).trans hperm).trans
      (List.perm_insertionSort kwLe kw2).symm
  have hnd1 : ((sortKwargs kw1).map Prod.fst).Nodup :=
    (((List.perm_insertionSort kwLe kw1).map Prod.fst).nodup_iff).mpr hnd
  have hnd2 : ((sortKwargs kw2).map Prod.fst).Nodup :=
    ((h1.map Prod.fst).nodup_iff).mp hnd1
  exact List.eq_of_perm_of_sorted h1
    (sorted_kwLt_of_sorted_nodup _ (List.sorted_insertionSort kwLe kw1) hnd1)
    (sorted_kwLt_of_sorted_nodup _ (List.sorted_insertionSort kwLe kw2) hnd2)

end CacheKey

set_option maxRecDepth 100000 in
/-- C10 counterexample: prefix-pattern invalidation with the bare function
name `"revenue"` selects (and removes) an entry whose key was generated
for the different function `"revenue_timeline"`, so bare-name patterns do
not select precisely the named function's entries. -/
theorem c10_bare_name_overselects :
    (Cache.BoundedTTLCache.invalidatePattern (V := Nat)
        ⟨[(CacheKey.generateCacheKey "revenue_timeline" [] [], ⟨1, 0, 100, 0⟩)],
         10, 10, 0, 0, 0⟩
        (fun k => ("revenue".data).isPrefixOf k.data)).1 = 1
    ∧ "revenue_timeline" ≠ "revenue" := by
  exact ⟨by decide, by decide⟩

/-- C10 (amended): every generated key is exactly the prefix, a colon and
a 32-character hexadecimal MD5 digest, so every key starts with its
function name; pattern selection by name-plus-colon is precise for
colon-free function names, while selection by the bare name also matches
any function having that name as a prefix. -/
theorem c10_key_format :
    (∀ (pfx : String) (args : List CacheKey.PyVal)
        (kwargs : List (String × CacheKey.PyVal)),
        ∃ d : String, CacheKey.generateCacheKey pfx args kwargs = pfx ++ ":" ++ d ∧
          d.length = 32 ∧ ∀ ch ∈ d.data, ch ∈ Md5.hexDigits)
    ∧ (∀ (f : String) (args : List CacheKey.PyVal)
        (kwargs : List (String × CacheKey.PyVal)),
        f.data <+: (CacheKey.generateCacheKey f args kwargs).data)
    ∧ (∀ (f g : String) (args : List CacheKey.PyVal)
        (kwargs : List (String × CacheKey.PyVal)), ':' ∉ f.data → ':' ∉ g.data →
        ((f ++ ":").data <+: (CacheKey.generateCacheKey g args kwargs).data ↔
          f = g)) := by
  refine ⟨?_, ?_, ?_⟩
  · intro pfx args kwargs
    refine ⟨Md5.md5Hex (Md5.strBytes (CacheKey.keyString args kwargs)), rfl,
      Md5.md5Hex_length _, ?_⟩
    rw [Md5.md5Hex_data]
    exact Md5.md5HexChars_mem _
  · intro f args kwargs
    refine ⟨':' :: (Md5.md5Hex (Md5.strBytes (CacheKey.keyString args kwargs))).data, ?_⟩
    rw [CacheKey.generateCacheKey_data]
  · intro f g args kwargs hf hg
    constructor
    · rintro ⟨t, ht⟩
      rw [CacheKey.generateCacheKey_data] at ht
      simp only [String.data_append, List.append_assoc] at ht
      have ht' : f.data ++ ':' :: t =
          g.data ++ ':' ::
            (Md5.md5Hex (Md5.strBytes (CacheKey.keyString args kwargs))).data := by
        simpa using ht
      exact String.ext (eq_of_colon_free_append ht' hf hg)
    · rintro rfl
      refine ⟨(Md5.md5Hex (Md5.strBytes (CacheKey.keyString args kwargs))).data, ?_⟩
      rw [CacheKey.generateCacheKey_data]
      simp

/-- C10 witness: for the colon-free name pair `("f", "f")`, the theorem
yields that the key generated for `"f"` has the prefix `"f:"`. -/
theorem c10_key_format_witness :
    ("f" ++ ":").data <+: (CacheKey.generateCacheKey "f" [] []).data :=
  (c10_key_format.2.2 "f" "f" [] [] (by decide) (by decide)).mpr rfl

set_option maxRecDepth 100000 in
/-- C6: cache-key derivation is deterministic and keyword-order
independent — permuting distinct keyword arguments yields the identical
key, and the two singleton calls differing only in the value of `a` yield
different keys. -/
theorem c6_key_determinism :
    (∀ (pfx : String) (args : List CacheKey.PyVal)
        (kw1 kw2 : List (String × CacheKey.PyVal)),
        kw1.Perm kw2 → (kw1.map Prod.fst).Nodup →
        CacheKey.generateCacheKey pfx args kw1 =
          CacheKey.generateCacheKey pfx args kw2)
    ∧ CacheKey.generateCacheKey "f" [] [("a", .pint 1)] ≠
        CacheKey.generateCacheKey "f" [] [("a", .pint 2)] := by
  constructor
  · intro pfx args kw1 kw2 hperm hnd
    unfold CacheKey.generateCacheKey CacheKey.keyString
    rw [CacheKey.sortKwargs_perm_eq kw1 kw2 hperm hnd]
  · decide

/-- C6 witness: `key(f, \x7ba:1, b:2\x7d) = key(f, \x7bb:2, a:1\x7d)`,
obtained from the theorem at the permuted two-keyword argument lists. -/
theorem c6_key_determinism_witness :
    ([("a", CacheKey.PyVal.pint 1), ("b", CacheKey.PyVal.pint 2)].Perm
        [("b", CacheKey.PyVal.pint 2), ("a", CacheKey.PyVal.pint 1)]) ∧
    CacheKey.generateCacheKey "f" [] [("a", .pint 1), ("b", .pint 2)] =
      CacheKey.generateCacheKey "f" [] [("b", .pint 2), ("a", .pint 1)] :=
  ⟨by decide, c6_key_determinism.1 "f" [] _ _ (by decide) (by decide)⟩

/-- C4 counterexample: a failing loader does not leave the cache namespace
exactly as it was before the call — when the file's mtime has increased,
the data-cache entry is invalidated before the loader runs, so after the
failure the entry is gone (and a miss is recorded) even though the error
propagated and nothing was stored. -/
theorem c4_failed_load_mutates_namespace :
    (let m : Cache.CacheManager Nat :=
       ⟨⟨[("f.json", ⟨7, 0, 100, 0⟩)], 10, 3600, 0, 0, 0⟩,
        Cache.mkCache Nat 500 1800, Cache.mkCache Nat 200 3600,
        [("f.json", 1)], 3600, 1800, 3600⟩
     let r := m.getData "f.json" 2 (fun _ => .error "boom") 5
     r.1 = .error "boom" ∧ r.2.1.dataCache.entries = [] ∧
       m.dataCache.entries ≠ []) := by
  exact ⟨by rfl, by rfl, by decide⟩

/-- C4 (amended): a failing compute/loader callback propagates its error
unchanged, stores nothing under the key, leaves `fileLastSeenMTime` and
the other cache namespaces untouched, and a subsequent call for the same
key invokes the callback again — although the consulted namespace may
still reflect the miss accounting and the expiry/file-change removal that
preceded the callback. -/
theorem c4_failure_not_cached (V : Type) :
    (∀ (m : Cache.CacheManager V) (p : String) (mt : Nat)
        (loader : String → Except String V) (now : Nat) (e : String),
        (m.getData p mt loader now).1 = .error e →
        loader p = .error e ∧
        (m.getData p mt loader now).2.1.fileMtimes = m.fileMtimes ∧
        (m.getData p mt loader now).2.1.queryCache = m.queryCache ∧
        (m.getData p mt loader now).2.1.aggCache = m.aggCache ∧
        Cache.lookupEntry (m.getData p mt loader now).2.1.dataCache.entries p = none ∧
        (∀ (mt2 now2 : Nat),
          ((m.getData p mt loader now).2.1.getData p mt2 loader now2).2.2 = true))
    ∧ (∀ (m : Cache.CacheManager V) (name : String) (args : List CacheKey.PyVal)
        (kwargs : List (String × CacheKey.PyVal))
        (computeFn : Unit → Except String V) (now : Nat) (e : String),
        (m.cachedQuery name args kwargs computeFn now).1 = .error e →
        computeFn () = .error e ∧
        (m.cachedQuery name args kwargs computeFn now).2.1.fileMtimes = m.fileMtimes ∧
        (m.cachedQuery name args kwargs computeFn now).2.1.dataCache = m.dataCache ∧
        (m.cachedQuery name args kwargs computeFn now).2.1.aggCache = m.aggCache ∧
        Cache.lookupEntry
          (m.cachedQuery name args kwargs computeFn now).2.1.queryCache.entries
          (CacheKey.generateCacheKey name args kwargs) = none ∧
        (∀ now2 : Nat,
          ((m.cachedQuery name args kwargs computeFn now).2.1.cachedQuery
            name args kwargs computeFn now2).2.2 = true))
    ∧ (∀ (m : Cache.CacheManager V) (name : String) (args : List CacheKey.PyVal)
        (kwargs : List (String × CacheKey.PyVal))
        (computeFn : Unit → Except String V) (now : Nat) (e : String),
        (m.cachedAggregation name args kwargs computeFn now).1 = .error e →
        computeFn () = .error e ∧
        (m.cachedAggregation name args kwargs computeFn now).2.1.fileMtimes = m.fileMtimes ∧
        (m.cachedAggregation name args kwargs computeFn now).2.1.dataCache = m.dataCache ∧
        (m.cachedAggregation name args kwargs computeFn now).2.1.queryCache = m.queryCache ∧
        Cache.lookupEntry
          (m.cachedAggregation name args kwargs computeFn now).2.1.aggCache.entries
          (CacheKey.generateCacheKey name args kwargs) = none ∧
        (∀ now2 : Nat,
          ((m.cachedAggregation name args kwargs computeFn now).2.1.cachedAggregation
            name args kwargs computeFn now2).2.2 = true)) := by
  refine ⟨?_, ?_, ?_⟩
  · intro m p mt loader now e h
    unfold Cache.CacheManager.getData at h ⊢
    obtain ⟨hload, hstate, hmiss, hflag⟩ := Cache.getDataAux_error _ p mt loader now e h
    have hlook : Cache.lookupEntry
        (Cache.CacheManager.getDataAux
          (if Cache.checkFileModified m.fileMtimes p mt then
            { m with dataCache := (m.dataCache.invalidate p).2 }
          else m) p mt loader now).2.1.dataCache.entries p = none := by
      rw [hstate]
      exact Cache.get_miss_lookup_none _ p now hmiss
    refine ⟨hload, ?_, ?_, ?_, hlook, ?_⟩
    · rw [hstate]
      by_cases hc : Cache.checkFileModified m.fileMtimes p mt <;>
        simp [hc]
    · rw [hstate]
      by_cases hc : Cache.checkFileModified m.fileMtimes p mt <;>
        simp [hc]
    · rw [hstate]
      by_cases hc : Cache.checkFileModified m.fileMtimes p mt <;>
        simp [hc]
    · intro mt2 now2
      exact Cache.getData_flag_of_no_entry _ p mt2 loader now2 hlook
  · intro m name args kwargs computeFn now e h
    obtain ⟨hcomp, hstate, hmiss, hflag⟩ :=
      Cache.cachedQuery_error m name args kwargs computeFn now e h
    have hlook : Cache.lookupEntry
        (m.cachedQuery name args kwargs computeFn now).2.1.queryCache.entries
        (CacheKey.generateCacheKey name args kwargs) = none := by
      rw [hstate]
      exact Cache.get_miss_lookup_none _ _ now hmiss
    refine ⟨hcomp, by rw [hstate], by rw [hstate], by rw [hstate], hlook, ?_⟩
    intro now2
    exact Cache.cachedQuery_flag_of_no_entry _ name args kwargs computeFn now2 hlook
  · intro m name args kwargs computeFn now e h
    obtain ⟨hcomp, hstate, hmiss, hflag⟩ :=
      Cache.cachedAggregation_error m name args kwargs computeFn now e h
    have hlook : Cache.lookupEntry
        (m.cachedAggregation name args kwargs computeFn now).2.1.aggCache.entries
        (CacheKey.generateCacheKey name args kwargs) = none := by
      rw [hstate]
      exact Cache.get_miss_lookup_none _ _ now hmiss
    refine ⟨hcomp, by rw [hstate], by rw [hstate], by rw [hstate], hlook, ?_⟩
    intro now2
    exact Cache.cachedAggregation_flag_of_no_entry _ name args kwargs computeFn now2 hlook

/-- C4 witness: a failing compute on a fresh manager — the error
propagates, `fileLastSeenMTime` is unchanged and the immediately following
identical call invokes the callback again. -/
theorem c4_failure_not_cached_witness :
    (let m := Cache.mkManager Nat (10, 500, 200) (3600, 1800, 3600)
     let r := m.cachedQuery "q" [] [] (fun _ => .error "boom") 1
     r.2.1.fileMtimes = m.fileMtimes ∧
       (r.2.1.cachedQuery "q" [] [] (fun _ => .error "boom") 2).2.2 = true) := by
  have h := (c4_failure_not_cached Nat).2.1
    (Cache.mkManager Nat (10, 500, 200) (3600, 1800, 3600))
    "q" [] [] (fun _ => .error "boom") 1 "boom" (by rfl)
  exact ⟨h.2.1, h.2.2.2.2.2 2⟩

/-- C8: warming never aborts — every plan item contributes exactly one
report line, and an item whose compute fails on a miss is recorded in the
report as its id paired with the error while the remaining items are
processed exactly as they would be on their own. -/
theorem c8_warming_continues (V : Type) :
    (∀ (m : Cache.CacheManager V) (plan : List (Cache.WarmingPlanItem V)) (now : Nat),
        (Cache.warmAll m plan now).2.succeeded.length +
          (Cache.warmAll m plan now).2.failures.length = plan.length)
    ∧ (∀ (m : Cache.CacheManager V) (item : Cache.WarmingPlanItem V)
        (rest : List (Cache.WarmingPlanItem V)) (now : Nat) (e : String),
        (m.cachedQuery item.name item.args item.kwargs item.computeFn now).1 = .error e →
        (Cache.warmAll m (item :: rest) now).2.failures =
          (item.id, e) ::
            (Cache.warmAll
              (m.cachedQuery item.name item.args item.kwargs item.computeFn now).2.1
              rest now).2.failures ∧
        (Cache.warmAll m (item :: rest) now).2.succeeded =
          (Cache.warmAll
            (m.cachedQuery item.name item.args item.kwargs item.computeFn now).2.1
            rest now).2.succeeded) := by
  constructor
  · intro m plan now
    induction plan generalizing m with
    | nil => rfl
    | cons item rest ih =>
      unfold Cache.warmAll
      dsimp only
      rcases hr : m.cachedQuery item.name item.args item.kwargs item.computeFn now
        with ⟨res, m2, fl⟩
      cases res with
      | ok v => simp only [List.length_cons]; rw [Nat.add_right_comm]; rw [ih m2]
      | error err =>
        simp only [List.length_cons, Nat.add_succ]
        rw [ih m2]
  · intro m item rest now e h
    simp only [Cache.warmAll]
    rw [h]
    constructor
    · rfl
    · rfl

/-- C8 witness: a one-item plan whose compute always fails produces the
report recording that item's id and error. -/
theorem c8_warming_continues_witness :
    (Cache.warmAll (Cache.mkManager Nat (10, 500, 200) (3600, 1800, 3600))
      [⟨"i1", "q", [], [], fun _ => .error "bad"⟩] 1).2.failures =
      [("i1", "bad")] := by
  have h := (c8_warming_continues Nat).2
    (Cache.mkManager Nat (10, 500, 200) (3600, 1800, 3600))
    ⟨"i1", "q", [], [], fun _ => .error "bad"⟩ [] 1 "bad" (by rfl)
  simpa [Cache.warmAll] using h.1

/-- C3 counterexample: a `getData` call whose current mtime (3) differs
from the recorded mtime (5) — a backwards change — does not invoke the
loader: the cached value is served, because `_check_file_modified` tests
`current_mtime > last_mtime`, not inequality. -/
theorem c3_mtime_decrease_not_detected :
    (let m : Cache.CacheManager Nat :=
       ⟨⟨[("f.json", ⟨7, 0, 100, 0⟩)], 10, 3600, 0, 0, 0⟩,
        Cache.mkCache Nat 500 1800, Cache.mkCache Nat 200 3600,
        [("f.json", 5)], 3600, 1800, 3600⟩
     let r := m.getData "f.json" 3 (fun _ => .ok 9) 1
     r.2.2 = false ∧ r.1 = .ok 7) ∧ (3 : Nat) ≠ 5 := by
  exact ⟨⟨by rfl, by rfl⟩, by decide⟩

/-- C3 (amended): `getData` invalidates the data-cache entry exactly when
the file's current mtime is strictly greater than the recorded
`fileLastSeenMTime` (a missing record counts as 0); two calls with no file
change invoke the loader once, a call after an mtime increase invokes the
loader again, and a call after an mtime decrease serves the cached value
without invoking the loader. -/
theorem c3_file_invalidation (V : Type) (v : V) (p : String)
    (mt now now2 : Nat) (dTTL : Int)
    (httl : 0 < dTTL) (hmt : 0 < mt)
    (hfresh : now2 < now + dTTL.toNat) :
    (∀ (mts : List (String × Nat)) (q : String) (cur : Nat),
        Cache.checkFileModified mts q cur = true ↔
          (Cache.lookupNat mts q).getD 0 < cur)
    ∧ ((Cache.mkManager V (10, 500, 200) (dTTL, 1800, 3600)).getData p mt
        (fun _ => .ok v) now).2.2 = true
    ∧ (let m1 := ((Cache.mkManager V (10, 500, 200) (dTTL, 1800, 3600)).getData p mt
        (fun _ => .ok v) now).2.1
       (m1.getData p mt (fun _ => .ok v) now2).2.2 = false
       ∧ (m1.getData p mt (fun _ => .ok v) now2).1 = .ok v
       ∧ (∀ mt2, mt < mt2 →
           (m1.getData p mt2 (fun _ => .ok v) now2).2.2 = true)
       ∧ (∀ mt3, mt3 < mt →
           (m1.getData p mt3 (fun _ => .ok v) now2).2.2 = false ∧
           (m1.getData p mt3 (fun _ => .ok v) now2).1 = .ok v)) := by
  have hset : ¬ dTTL ≤ 0 := not_le.mpr httl
  have hnotexp : ¬ now + dTTL.toNat ≤ now2 := not_le.mpr hfresh
  have hc1 : Cache.checkFileModified [] p mt = true := by
    simp [Cache.checkFileModified, Cache.lookupNat, hmt]
  have hstep : (Cache.mkManager V (10, 500, 200) (dTTL, 1800, 3600)).getData p mt
      (fun _ => .ok v) now =
      (.ok v,
       ⟨⟨[(p, ⟨v, now, now + dTTL.toNat, now⟩)], 10, dTTL, 0, 1, 0⟩,
        Cache.mkCache V 500 1800, Cache.mkCache V 200 3600,
        [(p, mt)], dTTL, 1800, 3600⟩,
       true) := by
    simp [Cache.CacheManager.getData, Cache.CacheManager.getDataAux, Cache.mkManager, Cache.mkCache, hc1,
      Cache.BoundedTTLCache.invalidate, Cache.BoundedTTLCache.get,
      Cache.lookupEntry, Cache.removeKey, Cache.BoundedTTLCache.set, hset,
      Cache.applyN, Cache.updateNat]
  refine ⟨fun mts q cur => by simp [Cache.checkFileModified], ?_, ?_⟩
  · rw [hstep]
  · simp only [hstep]
    have hc2 : Cache.checkFileModified [(p, mt)] p mt = false := by
      simp [Cache.checkFileModified, Cache.lookupNat]
    refine ⟨?_, ?_, ?_, ?_⟩
    · simp [Cache.CacheManager.getData, Cache.CacheManager.getDataAux, hc2, Cache.BoundedTTLCache.get,
        Cache.lookupEntry, hnotexp]
    · simp [Cache.CacheManager.getData, Cache.CacheManager.getDataAux, hc2, Cache.BoundedTTLCache.get,
        Cache.lookupEntry, hnotexp]
    · intro mt2 h2
      have hc3 : Cache.checkFileModified [(p, mt)] p mt2 = true := by
        simp [Cache.checkFileModified, Cache.lookupNat, h2]
      simp [Cache.CacheManager.getData, Cache.CacheManager.getDataAux, hc3, Cache.BoundedTTLCache.invalidate,
        Cache.BoundedTTLCache.get, Cache.lookupEntry, Cache.removeKey]
    · intro mt3 h3
      have hc4 : Cache.checkFileModified [(p, mt)] p mt3 = false := by
        simp [Cache.checkFileModified, Cache.lookupNat]
        omega
      constructor <;>
        simp [Cache.CacheManager.getData, Cache.CacheManager.getDataAux, hc4, Cache.BoundedTTLCache.get,
          Cache.lookupEntry, hnotexp]

/-- C3 witness: with a 3600-second data TTL, after a first `getData` for
`d.json` at mtime 5, a second call with the same mtime inside the TTL does
not invoke the loader. -/
theorem c3_file_invalidation_witness :
    (let m1 := ((Cache.mkManager Nat (10, 500, 200) (3600, 1800, 3600)).getData
        "d.json" 5 (fun _ => .ok 7) 1).2.1
     (m1.getData "d.json" 5 (fun _ => .ok 7) 2).2.2 = false) := by
  have h := c3_file_invalidation Nat 7 "d.json" 5 1 2 3600
    (by decide) (by decide) (by decide)
  exact h.2.2.1

/-- C2: for every operation sequence on a `BoundedTTLCache` constructed
with `maxSize = N`, after each operation completes the number of stored
entries is at most `N`; an insertion that would exceed the bound evicts
entries until the size is back within it. -/
theorem c2_bounded_size (V : Type) (N : Nat) (ttl : Int)
    (ops : List (Cache.CacheOp V)) :
    (Cache.applyOps (Cache.mkCache V N ttl) ops).entries.length ≤ N :=
  Cache.applyOps_mkCache_size_le N ttl ops

/-- C1: a `get` performed at `now >= expiresAt` removes the entry, records
a miss and returns empty; and no `get` ever returns a value whose
`expiresAt <= now`. -/
theorem c1_get_never_returns_expired (V : Type) (c : Cache.BoundedTTLCache V)
    (k : String) (now : Nat) :
    ((∃ e, Cache.lookupEntry c.entries k = some e ∧ e.expiresAt ≤ now) →
      (c.get k now).1 = none ∧
      Cache.lookupEntry (c.get k now).2.entries k = none ∧
      (c.get k now).2.misses = c.misses + 1)
    ∧ ∀ v, (c.get k now).1 = some v →
        ∃ e, Cache.lookupEntry c.entries k = some e ∧ v = e.value ∧
          now < e.expiresAt := by
  cases h : Cache.lookupEntry c.entries k with
  | none =>
    constructor
    · rintro ⟨e, he, -⟩
      simp at he
    · intro v hv
      simp [Cache.BoundedTTLCache.get, h] at hv
  | some e =>
    by_cases hexp : e.expiresAt ≤ now
    · constructor
      · intro _
        refine ⟨?_, ?_, ?_⟩ <;>
          simp [Cache.BoundedTTLCache.get, h, hexp, Cache.lookupEntry_removeKey]
      · intro v hv
        simp [Cache.BoundedTTLCache.get, h, hexp] at hv
    · constructor
      · rintro ⟨e', he', hle⟩
        cases he'
        exact absurd hle hexp
      · intro v hv
        simp only [Cache.BoundedTTLCache.get, h, if_neg hexp] at hv
        exact ⟨e, rfl, (Option.some.inj hv).symm, lt_of_not_le hexp⟩

/-- C1 witness: a cache holding key K with `expiresAt = 5`, read at
`now = 5`: the read returns empty, removes the entry and records a miss. -/
theorem c1_get_never_returns_expired_witness :
    (let c : Cache.BoundedTTLCache Nat := ⟨[("K", ⟨42, 0, 5, 0⟩)], 10, 10, 0, 0, 0⟩
     (c.get "K" 5).1 = none ∧
       Cache.lookupEntry (c.get "K" 5).2.entries "K" = none ∧
       (c.get "K" 5).2.misses = c.misses + 1) := by
  exact (c1_get_never_returns_expired Nat ⟨[("K", ⟨42, 0, 5, 0⟩)], 10, 10, 0, 0, 0⟩
    "K" 5).1 ⟨⟨42, 0, 5, 0⟩, by decide, by decide⟩

/-- C7: non-positive configuration disables caching rather than failing —
with `maxSize = 0` every `set` is a no-op and every `get` from a cache
constructed that way is a miss, and a `set` with `ttl <= 0` does not store;
all such calls return normally. -/
theorem c7_nonpositive_config_disables (V : Type) :
    (∀ (c : Cache.BoundedTTLCache V) (k : String) (v : V) (ttl : Int) (now : Nat),
        c.maxSize = 0 → c.set k v ttl now = c)
    ∧ (∀ (c : Cache.BoundedTTLCache V) (k : String) (v : V) (ttl : Int) (now : Nat),
        ttl ≤ 0 → c.set k v ttl now = c)
    ∧ (∀ (d : Int) (ops : List (Cache.CacheOp V)) (k : String) (now : Nat),
        ((Cache.applyOps (Cache.mkCache V 0 d) ops).get k now).1 = none ∧
        ((Cache.applyOps (Cache.mkCache V 0 d) ops).get k now).2.misses =
          (Cache.applyOps (Cache.mkCache V 0 d) ops).misses + 1) := by
  refine ⟨?_, ?_, ?_⟩
  · intro c k v ttl now h
    unfold Cache.BoundedTTLCache.set
    split <;> simp_all
  · intro c k v ttl now h
    unfold Cache.BoundedTTLCache.set
    rw [if_pos h]
  · intro d ops k now
    have hempty : (Cache.applyOps (Cache.mkCache V 0 d) ops).entries = [] := by
      have := Cache.applyOps_mkCache_size_le (V := V) 0 d ops
      exact List.length_eq_zero.mp (Nat.le_zero.mp this)
    constructor <;> simp [Cache.BoundedTTLCache.get, Cache.lookupEntry, hempty]

/-- C7 witness: with `maxSize = 0` a concrete `set` leaves the cache
unchanged; a `set` with `ttl = 0` leaves it unchanged; and after a `set`
on a `maxSize = 0` cache a `get` misses. -/
theorem c7_nonpositive_config_disables_witness :
    ((Cache.mkCache Nat 0 10).set "A" 1 10 1 = Cache.mkCache Nat 0 10) ∧
    ((Cache.mkCache Nat 5 10).set "A" 1 0 1 = Cache.mkCache Nat 5 10) ∧
    ((Cache.applyOps (Cache.mkCache Nat 0 10) [.set "A" 1 10 1]).get "A" 2).1 = none := by
  refine ⟨?_, ?_, ?_⟩
  · exact (c7_nonpositive_config_disables Nat).1 _ "A" 1 10 1 rfl
  · exact (c7_nonpositive_config_disables Nat).2.1 _ "A" 1 0 1 (by decide)
  · exact ((c7_nonpositive_config_disables Nat).2.2 10 [.set "A" 1 10 1] "A" 2).1

/-- C5: LRU eviction is driven by `lastAccessedAt` (each eviction removes
an entry whose `lastAccessedAt` is minimal), and concretely — with
`maxSize = 2`, inserting A, then B, then reading A, then inserting C
evicts B and retains A; and inserting A, B, C with no reads leaves
exactly B and C. -/
theorem c5_lru_eviction_scenarios :
    (∀ (V : Type) (l : List (String × Cache.CacheEntry V)), l ≠ [] →
      ∃ x, x ∈ l ∧ (∀ z ∈ l, x.2.lastAccessedAt ≤ z.2.lastAccessedAt) ∧
        l.Perm (x :: Cache.removeLRU l))
    ∧ (let c2 := ((Cache.mkCache Nat 2 10).set "A" 1 10 1).set "B" 2 10 2
       let r := c2.get "A" 3
       let c4 := r.2.set "C" 3 10 4
       r.1 = some 1 ∧
         c4.entries.map (fun p => (p.1, p.2.value)) = [("A", 1), ("C", 3)])
    ∧ ((((Cache.mkCache Nat 2 10).set "A" 1 10 1).set "B" 2 10 2).set "C" 3 10 3).entries.map
        (fun p => (p.1, p.2.value)) = [("B", 2), ("C", 3)] := by
  exact ⟨fun V l h => Cache.removeLRU_removes_min l h,
    ⟨by decide, by decide⟩, by decide⟩

/-- C5 witness: the general LRU-minimality conjunct applied to a concrete
one-entry list. -/
theorem c5_lru_eviction_scenarios_witness :
    ∃ x, x ∈ [("A", (⟨1, 1, 11, 1⟩ : Cache.CacheEntry Nat))] ∧
      (∀ z ∈ [("A", (⟨1, 1, 11, 1⟩ : Cache.CacheEntry Nat))],
        x.2.lastAccessedAt ≤ z.2.lastAccessedAt) ∧
      List.Perm [("A", (⟨1, 1, 11, 1⟩ : Cache.CacheEntry Nat))]
        (x :: Cache.removeLRU [("A", ⟨1, 1, 11, 1⟩)]) :=
  c5_lru_eviction_scenarios.1 Nat _ (by decide)
